import Mathlib

/-!
Verification of the cemconv mesh converter (src/main.rs, src/collada_import.rs,
src/collada_export.rs) against its natural-language specification.

The development shallowly embeds the conversion pipeline: machine floats (`f32`/`f64`) become
exact rationals, Rust `Vec` becomes `List`, the `HashMap` dedup tables become association lists
looked up by key equality, and fallible paths return `Except`. Types that the sources take from
the external `cem` crate (`v2::Frame`, `collider::CenterBuilder`, the `v2::V2` container) are
modelled from the specification and are marked as such in their doc comments.
-/

namespace Cemconv

/-- Vector or point with three rational components, standing for cgmath `Point3<f32>` /
`Vector3<f32>` and the parsed `f64` vertex records of both authoring grammars. -/
structure V3 where
  x : ℚ
  y : ℚ
  z : ℚ
deriving DecidableEq

/-- Point with two rational components, standing for cgmath `Point2<f32>`. -/
structure P2 where
  x : ℚ
  y : ℚ
deriving DecidableEq

/-- Homogeneous 4-vector, standing for cgmath `Vector4<f32>`. -/
structure V4 where
  x : ℚ
  y : ℚ
  z : ℚ
  w : ℚ
deriving DecidableEq

/-- Texture vertex of the wavefront OBJ grammar (`obj::TVertex { u, v, w }`). -/
structure TVertex where
  u : ℚ
  v : ℚ
  w : ℚ
deriving DecidableEq

/-- Texture vertex of the COLLADA grammar (`collada::TVertex { x, y }`). -/
structure CTVertex where
  x : ℚ
  y : ℚ
deriving DecidableEq

/-- Split-index face corner: `VTNIndex = (VertexIndex, Option<TextureIndex>, Option<NormalIndex>)`
shared by the wavefront and COLLADA crates. -/
structure VTN where
  pos : Nat
  tex : Option Nat
  norm : Option Nat
deriving DecidableEq

/-- Face primitive (`collada::Shape` / `obj::Primitive`): point, line, or triangle of split
indices. Both importer walks treat the two isomorphic source types identically. -/
inductive Shape where
  | point (a : VTN)
  | line (a b : VTN)
  | triangle (a b c : VTN)
deriving DecidableEq

/-- Geometry block: a list of face primitives (`Geometry { shapes }` in both grammars; the
material binding carried by the source type is irrelevant to every claim). -/
structure Geometry where
  shapes : List Shape
deriving DecidableEq

/-- Parsed COLLADA object (`collada::Object`): attribute arrays plus geometry blocks. -/
structure CObject where
  vertices : List V3
  tex_vertices : List CTVertex
  normals : List V3
  geometry : List Geometry
deriving DecidableEq

/-- Parsed wavefront object (`obj::Object`): attribute arrays plus geometry blocks. -/
structure OObject where
  vertices : List V3
  tex_vertices : List TVertex
  normals : List V3
  geometry : List Geometry
deriving DecidableEq

/-- Flat runtime vertex (`cem::v2::Vertex { position, normal, texture }`). -/
structure CemVertex where
  position : V3
  normal : V3
  texture : P2
deriving DecidableEq

/-- Contiguous triangle range of a material (`cem::v2::TriangleSelection { offset, len }`). -/
structure TriangleSelection where
  offset : Nat
  len : Nat
deriving DecidableEq

/-- Material record (`cem::v2::Material`) exactly as the two importers construct it. -/
structure Material where
  name : String
  texture : Nat
  triangles : List TriangleSelection
  vertex_offset : Nat
  vertex_count : Nat
  texture_name : String
deriving DecidableEq

/-- Action of cgmath `Matrix4::from_angle_x(θ)` on a homogeneous vector: rotation about the X
axis with cosine `c` and sine `s`, no translation. The conversions instantiate it at θ = ±90°,
whose cosine and sine are taken exactly (`0` and `±1`); the f32 library evaluates them only up
to rounding. -/
def fromAngleX (c s : ℚ) (v : V4) : V4 :=
  ⟨v.x, c * v.y - s * v.z, s * v.y + c * v.z, v.w⟩

/-- cgmath `Point3::to_homogeneous`: append `w = 1`. -/
def toHomogeneous (p : V3) : V4 := ⟨p.x, p.y, p.z, 1⟩

/-- cgmath `Point3::from_homogeneous`: divide the spatial components by `w`. -/
def fromHomogeneous (v : V4) : V3 := ⟨v.x / v.w, v.y / v.w, v.z / v.w⟩

/-- cgmath `Vector3::extend`: append the given fourth component. -/
def extend (v : V3) (w : ℚ) : V4 := ⟨v.x, v.y, v.z, w⟩

/-- cgmath `Vector4::truncate`: drop the fourth component. -/
def truncate (v : V4) : V3 := ⟨v.x, v.y, v.z⟩

/-- Position transform `Point3::from_homogeneous(from_angle_x(θ) * p.to_homogeneous())` used by
both importers and both exporters. -/
def transformPoint (c s : ℚ) (p : V3) : V3 :=
  fromHomogeneous (fromAngleX c s (toHomogeneous p))

/-- Direction transform `(from_angle_x(θ) * d.extend(0)).truncate()` used for normals. -/
def transformDir (c s : ℚ) (d : V3) : V3 :=
  truncate (fromAngleX c s (extend d 0))

/-- Import axis transform on positions: `Matrix4::from_angle_x(Deg(90.0))`
(main.rs line 174, collada_import.rs line 226). -/
def importPoint : V3 → V3 := transformPoint 0 1

/-- Export axis transform on positions: `Matrix4::from_angle_x(Deg(-90.0))`
(main.rs line 262, collada_export.rs line 120). -/
def exportPoint : V3 → V3 := transformPoint 0 (-1)

/-- Import axis transform on normals (direction-only action of the same rotation). -/
def importDir : V3 → V3 := transformDir 0 1

/-- Export axis transform on normals. -/
def exportDir : V3 → V3 := transformDir 0 (-1)

/-- cgmath `InnerSpace::normalize`: scale by the reciprocal magnitude. The f32 square root has
no exact rational counterpart; `Rat.sqrt` stands in for it. Every concrete normal a theorem
below evaluates is a unit axis vector, on which both square roots are exact. -/
def normalize (v : V3) : V3 :=
  let m := Rat.sqrt (v.x * v.x + v.y * v.y + v.z * v.z)
  ⟨v.x / m, v.y / m, v.z / m⟩

/-- Modelled from the spec: `cem::collider::CenterBuilder` (external cem crate, not under src/).
Section 4.2 requires `begin`/`update`/`build`, a single streaming pass over one frame's
positions producing one representative reference point, and the origin when `build` is called
without any `update`. Realized here as the midpoint of the axis-aligned bounding box of the
folded positions. -/
structure CenterBuilder where
  state : Option (V3 × V3)
deriving DecidableEq

/-- Modelled from the spec: `CenterBuilder::begin` starts with no accumulated position. -/
def CenterBuilder.begin : CenterBuilder := ⟨none⟩

/-- Modelled from the spec: `CenterBuilder::update` folds one more position into the running
bounding box. -/
def CenterBuilder.update (b : CenterBuilder) (p : V3) : CenterBuilder :=
  match b.state with
  | none => ⟨some (p, p)⟩
  | some (lo, hi) =>
      ⟨some (⟨min lo.x p.x, min lo.y p.y, min lo.z p.z⟩,
             ⟨max hi.x p.x, max hi.y p.y, max hi.z p.z⟩)⟩

/-- Modelled from the spec: `CenterBuilder::build` yields the representative point, the origin
when no position was folded. -/
def CenterBuilder.build (b : CenterBuilder) : V3 :=
  match b.state with
  | none => ⟨0, 0, 0⟩
  | some (lo, hi) => ⟨(lo.x + hi.x) / 2, (lo.y + hi.y) / 2, (lo.z + hi.z) / 2⟩

/-- Modelled from the spec: `cem::v2::Frame` together with `Frame::from_vertices(vertices,
tag_points, center)` (external cem crate). Section 3 describes a frame as one full flat-vertex
sequence; the center handed to the constructor is the frame's declared reference point, so the
model records the three constructor arguments verbatim. -/
structure Frame where
  vertices : List CemVertex
  tag_points : List V3
  center : V3
deriving DecidableEq

/-- Modelled from the spec: `Frame::from_vertices` builds a frame from exactly its three
arguments. -/
def Frame.from_vertices (vertices : List CemVertex) (tag_points : List V3)
    (center : V3) : Frame :=
  ⟨vertices, tag_points, center⟩

/-- Flat model container `cem::v2::V2` with exactly the fields the two importers populate
(struct literals at main.rs lines 229-251 and collada_import.rs lines 202-222). -/
structure V2Model where
  center : V3
  materials : List Material
  lod_levels : List (List (Nat × Nat × Nat))
  tag_points : List V3
  frames : List Frame
deriving DecidableEq

/-- State of one deduplication pass: `associations` is the flat-index-ordered list of keys
(`associations` vector in collada_import.rs, the pushed-vertex order in main.rs), `reverse` the
associative table from key to assigned flat index (the `reverse` / `vertex_associations`
HashMap). The hash table is value-keyed with no observable order, so it is carried as an
association list looked up by key equality; theorem `claim_C8` shows every placement of the
entries yields the same result. -/
structure DedupState (K : Type) where
  associations : List K
  reverse : List (K × Nat)
deriving DecidableEq

/-- Empty dedup state: both containers start empty. -/
def emptyDedup (K : Type) : DedupState K := ⟨[], []⟩

/-- Key lookup in the modelled hash table: the value stored at the unique entry with an equal
key, if any. -/
def lookupKey {K : Type} [DecidableEq K] : List (K × Nat) → K → Option Nat
  | [], _ => none
  | e :: rest, c => if e.1 = c then some e.2 else lookupKey rest c

/-- One dedup lookup (`dedup_vertex` body, collada_import.rs lines 163-169, and the
`vertex_associations.entry(v).or_insert_with` body, main.rs lines 180-200): a known key returns
its stored flat index; an unknown key is assigned the next sequential index
`associations.len()`, appended to the association list, and recorded in the table. -/
def dedupInsert {K : Type} [DecidableEq K] (st : DedupState K) (c : K) : Nat × DedupState K :=
  match lookupKey st.reverse c with
  | some i => (i, st)
  | none =>
      (st.associations.length,
       ⟨st.associations ++ [c], (c, st.associations.length) :: st.reverse⟩)

/-- Dedup lookups for a list of keys in order, threading the state. -/
def dedupList {K : Type} [DecidableEq K] (st : DedupState K) :
    List K → List Nat × DedupState K
  | [] => ([], st)
  | c :: cs =>
      let r := dedupInsert st c
      let rest := dedupList r.2 cs
      (r.1 :: rest.1, rest.2)

/-- Canonicalization of a split corner (`dedup_vertex` head, collada_import.rs lines 157-161):
substitute the out-of-range sentinel — the length of the respective source array — for a
missing texture or normal reference. -/
def canon (invalid_texture_index invalid_normal_index : Nat) (v : VTN) : Nat × Nat × Nat :=
  (v.pos, v.tex.getD invalid_texture_index, v.norm.getD invalid_normal_index)

/-- Well-formedness of one split corner with respect to the source array lengths: every present
texture or normal reference is in range. On such corners the OBJ path's raw-key indexing panics
nowhere and canonicalization is injective. -/
def validCorner (invalid_texture_index invalid_normal_index : Nat) (v : VTN) : Bool :=
  (match v.tex with
   | some t => decide (t < invalid_texture_index)
   | none => true) &&
  (match v.norm with
   | some n => decide (n < invalid_normal_index)
   | none => true)

/-- Triangle loop body shared by both importers (collada_import.rs lines 174-183, main.rs lines
205-214): a triangle resolves its three corners through the dedup table, in corner order, and
appends the flat triangle; lines and points are skipped. `keyOf` is the key the grammar feeds
the table: the canonicalized triple for COLLADA, the raw `VTNIndex` for OBJ. -/
def shapeStep {K : Type} [DecidableEq K] (keyOf : VTN → K)
    (acc : List (Nat × Nat × Nat) × DedupState K) (s : Shape) :
    List (Nat × Nat × Nat) × DedupState K :=
  match s with
  | .triangle a b c =>
      let ra := dedupInsert acc.2 (keyOf a)
      let rb := dedupInsert ra.2 (keyOf b)
      let rc := dedupInsert rb.2 (keyOf c)
      (acc.1 ++ [(ra.1, rb.1, rc.1)], rc.2)
  | _ => acc

/-- Nested geometry/shape walk of both importers (collada_import.rs lines 172-186, main.rs
lines 203-216): visit every geometry block in order, every shape in order. -/
def triangleWalk {K : Type} [DecidableEq K] (keyOf : VTN → K) (geoms : List Geometry) :
    List (Nat × Nat × Nat) × DedupState K :=
  geoms.foldl (fun acc g => g.shapes.foldl (shapeStep keyOf) acc) ([], emptyDedup K)

/-- Corners contributed by one shape to the dedup walk: the three triangle corners in order,
nothing for skipped lines and points. -/
def shapeCorners (s : Shape) : List VTN :=
  match s with
  | .triangle a b c => [a, b, c]
  | _ => []

/-- Triangle corners of a geometry list in visit order (three per triangle, skipping lines and
points) — the face-corner reference sequence the claims quantify over. -/
def cornerList (geoms : List Geometry) : List VTN :=
  geoms.flatMap fun g => g.shapes.flatMap shapeCorners

/-- Flat corner indices of a triangle list, three per triangle in corner order. -/
def flattenTris (tris : List (Nat × Nat × Nat)) : List Nat :=
  tris.flatMap fun t => [t.1, t.2.1, t.2.2]

/-- Specification-side reference: the subsequence of first occurrences of `cs` appended after
the already-seen prefix `acc`. -/
def firstOccAux {K : Type} [DecidableEq K] (acc : List K) : List K → List K
  | [] => acc
  | c :: cs => firstOccAux (if c ∈ acc then acc else acc ++ [c]) cs

/-- Specification-side reference: the distinct elements of `cs` in first-encounter order. -/
def firstOcc {K : Type} [DecidableEq K] (cs : List K) : List K := firstOccAux [] cs

/-- Specification-side reference: position of the first occurrence of `c` in `l` (the length of
`l` when absent). -/
def posOf {K : Type} [DecidableEq K] : List K → K → Nat
  | [], _ => 0
  | a :: l, c => if a = c then 0 else posOf l c + 1

/-- Shape comparison of the frame-topology validator (collada_import.rs lines 268-275): equal
primitive kind and, corner for corner, equal split-index triples. -/
def compare_shape (base frame : Shape) : Bool :=
  match base, frame with
  | .point a, .point b => decide (a = b)
  | .line a a1, .line b b1 => decide (a = b) && decide (a1 = b1)
  | .triangle a a1 a2, .triangle b b1 b2 =>
      decide (a = b) && decide (a1 = b1) && decide (a2 = b2)
  | _, _ => false

/-- Geometry comparison of the validator (collada_import.rs lines 256-266): equal shape count
and pairwise equal shapes. -/
def compare_geometry (base frame : List Shape) : Bool :=
  if base.length ≠ frame.length then
    false
  else if (base.zip frame).any fun pair => !compare_shape pair.1 pair.2 then
    false
  else
    true

/-- Per-candidate check of the validation loop body (collada_import.rs lines 124-140): the
three attribute-array counts must equal the base's, the geometry-block count must match, and
every geometry pair must compare equal. -/
def frameMatches (object frame : CObject) : Bool :=
  decide (object.vertices.length = frame.vertices.length) &&
  decide (object.normals.length = frame.normals.length) &&
  decide (object.tex_vertices.length = frame.tex_vertices.length) &&
  decide (object.geometry.length = frame.geometry.length) &&
  ((object.geometry.zip frame.geometry).all fun pair =>
    compare_geometry pair.1.shapes pair.2.shapes)

/-- Enumerated validation loop (collada_import.rs lines 121-141): walk the candidate frames in
linkage order carrying the zero-based position, record the first failing index and break. -/
def validateFramesAux (object : CObject) : Nat → List CObject → Option Nat
  | _, [] => none
  | index, frame :: rest =>
      if frameMatches object frame then validateFramesAux object (index + 1) rest
      else some index

/-- Frame-topology validation from candidate position 0; `some index` is the failed index that
collada_import.rs line 144 reports fatally. -/
def validateFrames (object : CObject) (frames : List CObject) : Option Nat :=
  validateFramesAux object 0 frames

/-- Texture fetch of `extract_frame` (collada_import.rs line 233):
`from.tex_vertices.get(texture).unwrap_or(&TVertex { x: 0.0, y: 0.0 })`. -/
def colladaFetchTexture (tex_vertices : List CTVertex) (texture : Nat) : CTVertex :=
  tex_vertices.getD texture ⟨0, 0⟩

/-- Normal fetch of `extract_frame` (collada_import.rs line 234):
`from.normals.get(normal).unwrap_or(&NVertex { x: 1.0, y: 0.0, z: 0.0 })`. -/
def colladaFetchNormal (normals : List V3) (normal : Nat) : V3 :=
  normals.getD normal ⟨1, 0, 0⟩

/-- Frame extraction (collada_import.rs lines 225-252): for each recorded canonical triple fetch
position, texture and normal from this object's own arrays, apply the import axis transform to
position and normalized normal, flip the texture V axis, stream every transformed position into
a fresh `CenterBuilder`, and build the frame from the vertices and the center so computed.
Position indexing (`from.vertices[position]`) panics in Rust when out of range; it is totalized
with `getD`, a case no theorem below exercises. -/
def extract_frame (from_ : CObject) (indices : List (Nat × Nat × Nat))
    (tag_points : List V3) : V3 × Frame :=
  let r := indices.foldl
    (fun (acc : List CemVertex × CenterBuilder) idx =>
      let position := from_.vertices.getD idx.1 ⟨0, 0, 0⟩
      let texture := colladaFetchTexture from_.tex_vertices idx.2.1
      let normal := colladaFetchNormal from_.normals idx.2.2
      let vertex : CemVertex :=
        { position := importPoint position
          normal := importDir (normalize normal)
          texture := ⟨texture.x, 1 - texture.y⟩ }
      (acc.1 ++ [vertex], acc.2.update vertex.position))
    ([], CenterBuilder.begin)
  let center := r.2.build
  (center, Frame.from_vertices r.1 tag_points center)

/-- Association list of the COLLADA dedup pass over an object's geometry, with the sentinel
indices `invalid_texture_index = tex_vertices.len()` and `invalid_normal_index = normals.len()`
(collada_import.rs lines 151-153). -/
def colladaAssociations (object : CObject) : List (Nat × Nat × Nat) :=
  (triangleWalk (canon object.tex_vertices.length object.normals.length)
    object.geometry).2.associations

/-- Conversion core of the COLLADA importer from the resolved root object and its morph-frame
objects (collada_import.rs lines 121-222): validate frame topology fatally reporting the first
failing index, deduplicate the base object's corners, extract the base frame — whose center
also becomes the model's — then one frame per morph object over the same association list, and
assemble the flat model with one material spanning the whole triangle buffer. -/
def colladaConvert (object : CObject) (object_frames : List CObject) :
    Except Nat V2Model :=
  match validateFrames object object_frames with
  | some failed_index => .error failed_index
  | none =>
      let walk := triangleWalk
        (canon object.tex_vertices.length object.normals.length) object.geometry
      let triangles := walk.1
      let associations := walk.2.associations
      let base := extract_frame object associations []
      let frames := base.2 :: object_frames.map fun f => (extract_frame f associations []).2
      .ok
        { center := base.1
          materials := [{ name := ""
                          texture := 0
                          triangles := [{ offset := 0, len := triangles.length }]
                          vertex_offset := 0
                          vertex_count := associations.length
                          texture_name := "" }]
          lod_levels := [triangles]
          tag_points := []
          frames := frames }

/-- Texture fetch of `resolve_index` (main.rs line 184):
`v.1.map(|index| i.tex_vertices[index]).unwrap_or(TVertex { u: 0.0, v: 0.0, w: 0.0 })`. The
in-range indexing panics in Rust when out of range; it is totalized with `getD`, a case no
theorem below relies on. -/
def objFetchTexture (tex_vertices : List TVertex) (v : VTN) : TVertex :=
  (v.tex.map fun index => tex_vertices.getD index ⟨0, 0, 0⟩).getD ⟨0, 0, 0⟩

/-- Normal fetch of `resolve_index` (main.rs line 185):
`v.2.map(|index| i.normals[index]).unwrap_or(Vertex { x: 1.0, y: 0.0, z: 0.0 })`. -/
def objFetchNormal (normals : List V3) (v : VTN) : V3 :=
  (v.norm.map fun index => normals.getD index ⟨1, 0, 0⟩).getD ⟨1, 0, 0⟩

/-- Vertex materialized by `resolve_index` on a table miss (main.rs lines 183-197): fetch
position, texture and normal, apply the import transform to the position and to the normalized
normal, keep the fetched u/v as the texture coordinate. The source pushes this vertex at
insertion time; it is a pure function of the corner and the source arrays. -/
def materializeObjVertex (i : OObject) (v : VTN) : CemVertex :=
  let position := i.vertices.getD v.pos ⟨0, 0, 0⟩
  let texture := objFetchTexture i.tex_vertices v
  let normal := objFetchNormal i.normals v
  { position := importPoint position
    normal := importDir (normalize normal)
    texture := ⟨texture.u, texture.v⟩ }

/-- Flat vertex buffer of the OBJ importer: the dedup pass keys the table on the raw
`VTNIndex` (main.rs line 180) and pushes one materialized vertex per newly inserted key, so the
buffer is the image of the insertion-ordered key list. -/
def objFlatVertices (i : OObject) : List CemVertex :=
  ((triangleWalk (fun v => v) i.geometry).2.associations).map (materializeObjVertex i)

/-- OBJ importer (main.rs lines 170-252): dedup walk over the geometry, center streamed from
the flat vertex positions, and the flat model literal with one material spanning the whole
triangle buffer. -/
def obj_to_cem (i : OObject) : V2Model :=
  let walk := triangleWalk (fun v => v) i.geometry
  let triangles := walk.1
  let vertices := objFlatVertices i
  let center := (vertices.foldl (fun b v => b.update v.position) CenterBuilder.begin).build
  { center := center
    materials := [{ name := ""
                    texture := 0
                    triangles := [{ offset := 0, len := triangles.length }]
                    vertex_offset := 0
                    vertex_count := vertices.length
                    texture_name := "" }]
    lod_levels := [triangles]
    tag_points := []
    frames := [Frame.from_vertices vertices [] center] }

/-- Display of one rational scalar in the emitted text, standing for the Rust `Display`
rendering of an f32; its exact spelling is irrelevant to every claim. -/
def ratStr (q : ℚ) : String := toString q

/-- Specification-side face-corner token of the OBJ emitter: one flat index occupying all three
slash-separated semantic slots (position, texture, normal). -/
def slash3 (i : Nat) : String :=
  toString i ++ "/" ++ toString i ++ "/" ++ toString i

/-- Face line of the OBJ emitter (main.rs lines 283-289): 1-based indices
`vertex_offset + corner + 1`, each written to the position, texture and normal slot of its
corner. -/
def objFaceLine (vertex_offset : Nat) (triangle : Nat × Nat × Nat) : String :=
  let i0 := vertex_offset + triangle.1 + 1
  let i1 := vertex_offset + triangle.2.1 + 1
  let i2 := vertex_offset + triangle.2.2 + 1
  "f " ++ toString i0 ++ "/" ++ toString i0 ++ "/" ++ toString i0 ++ " " ++
    toString i1 ++ "/" ++ toString i1 ++ "/" ++ toString i1 ++ " " ++
    toString i2 ++ "/" ++ toString i2 ++ "/" ++ toString i2 ++ "\n"

/-- OBJ text emitter (main.rs lines 254-294): per flat vertex a `v`, `vn`, `vt` listing of the
inverse-transformed frame, then per material a comment line and its face lines over the
material's first triangle selection. -/
def cem2_to_obj (cem : V2Model) (frame_index : Nat) : String :=
  let triangle_data := cem.lod_levels.getD 0 []
  let frame := cem.frames.getD frame_index ⟨[], [], ⟨0, 0, 0⟩⟩
  let vertex_text := frame.vertices.foldl
    (fun s v =>
      let normal := exportDir (normalize v.normal)
      let position := exportPoint v.position
      s ++ "v " ++ ratStr position.x ++ " " ++ ratStr position.y ++ " " ++
        ratStr position.z ++ "\n" ++
        "vn " ++ ratStr normal.x ++ " " ++ ratStr normal.y ++ " " ++
        ratStr normal.z ++ "\n" ++
        "vt " ++ ratStr v.texture.x ++ " " ++ ratStr v.texture.y ++ "\n")
    ""
  cem.materials.foldl
    (fun s m =>
      let triangle_slice := m.triangles.getD 0 ⟨0, 0⟩
      let s := s ++ "# name: " ++ m.name ++ ", texture: " ++ toString m.texture ++
        ", texture_name: " ++ m.texture_name ++ "\n"
      (List.range triangle_slice.len).foldl
        (fun s index =>
          s ++ objFaceLine m.vertex_offset
            (triangle_data.getD (index + triangle_slice.offset) (0, 0, 0)))
        s)
    vertex_text

/-- Specification-side face-corner token of the COLLADA emitter: one flat index repeated for
the three interleaved semantic inputs (VERTEX, NORMAL, TEXCOORD). -/
def tripleTok (index : Nat) : String :=
  toString index ++ " " ++ toString index ++ " " ++ toString index ++ " "

/-- Body of the `p` element of one COLLADA triangles block (collada_export.rs lines 74-78):
every polygon corner index is written three times, once per semantic input. -/
def colladaPolyBody (polygons : List Nat) : String :=
  polygons.foldl
    (fun s index =>
      s ++ toString index ++ " " ++ toString index ++ " " ++ toString index ++ " ")
    ""

/-- Output or input format selected on the command line (main.rs lines 29-32). -/
inductive Format where
  | cem (version : Nat × Nat) (frame_index : Nat)
  | obj
deriving DecidableEq

/-- Format token recognition (main.rs lines 34-47): the recognized tokens and their version
aliases; anything else is `none`. -/
def Format.parse (format : String) (frame_index : Option Nat) : Option Format :=
  let fi := frame_index.getD 0
  match format with
  | "cem1.3" => some (.cem (1, 3) fi)
  | "cem2" => some (.cem (2, 0) fi)
  | "cem" => some (.cem (2, 0) fi)
  | "ssmf" => some (.cem (2, 0) fi)
  | "obj" => some .obj
  | _ => none

/-- Input-format resolution (main.rs lines 62-65): the flag's token — the empty string when the
flag is absent — is parsed, and a failed parse falls back to CEM v2 with the requested frame
index. -/
def resolveInputFormat (input_format : Option String) (frame_index : Option Nat) : Format :=
  match Format.parse (input_format.getD "") frame_index with
  | some format => format
  | none => Format.cem (2, 0) (frame_index.getD 0)

/-- Format resolution of `main` before any conversion runs (main.rs lines 54-65): an output
token that fails to parse is a fatal usage error (`main` prints the diagnostic and returns
without converting); otherwise the resolved input and output formats reach `convert`. -/
def resolveFormats (format : String) (input_format : Option String)
    (frame_index : Option Nat) : Except String (Format × Format) :=
  match Format.parse format frame_index with
  | none => .error ("Unrecognized output format \"" ++ format ++ "\"")
  | some f => .ok (resolveInputFormat input_format frame_index, f)

/-- CEM-to-OBJ arm of `convert` (main.rs lines 149-165) from the decoded scene model: a frame
index at or past the frame count is an invalid-input error naming both numbers, and nothing is
written; otherwise the emitted OBJ text is the output. Stream and header handling are the
external codec. -/
def convertCemToObj (frame_index : Nat) (model : V2Model) : Except String String :=
  if frame_index ≥ model.frames.length then
    .error ("Tried to extract frame index " ++ toString frame_index ++
      " from a CEM file that only has " ++ toString model.frames.length ++ " frames")
  else
    .ok (cem2_to_obj model frame_index)

/-- Table invariant of the dedup pass: the reverse table stores exactly the keys of the
association list, each mapped to its first position there. -/
def DedupInv {K : Type} [DecidableEq K] (st : DedupState K) : Prop :=
  ∀ c, lookupKey st.reverse c =
    if c ∈ st.associations then some (posOf st.associations c) else none

/-- Key distinctness of a modelled hash table. -/
def NodupKeys {K : Type} (t : List (K × Nat)) : Prop :=
  (t.map Prod.fst).Nodup

/-- Dedup lookup with the new table entry placed by an arbitrary strategy `ins` — a stand-in
for the unspecified internal organization of the Rust `HashMap`; the canonical `dedupInsert` is
the strategy that places the entry at the front. -/
def dedupInsertW {K : Type} [DecidableEq K]
    (ins : K → Nat → List (K × Nat) → List (K × Nat)) (st : DedupState K) (c : K) :
    Nat × DedupState K :=
  match lookupKey st.reverse c with
  | some i => (i, st)
  | none =>
      (st.associations.length,
       ⟨st.associations ++ [c], ins c st.associations.length st.reverse⟩)

/-- Dedup run with the placement strategy `ins`. -/
def dedupListW {K : Type} [DecidableEq K]
    (ins : K → Nat → List (K × Nat) → List (K × Nat)) (st : DedupState K) :
    List K → List Nat × DedupState K
  | [] => ([], st)
  | c :: cs =>
      let r := dedupInsertW ins st c
      let rest := dedupListW ins r.2 cs
      (r.1 :: rest.1, rest.2)

/-- Concrete COLLADA object: one position at the origin, one triangle whose three corners all
reference it with no texture and no normal. -/
def sampleBase : CObject :=
  { vertices := [⟨0, 0, 0⟩]
    tex_vertices := []
    normals := []
    geometry := [⟨[.triangle ⟨0, none, none⟩ ⟨0, none, none⟩ ⟨0, none, none⟩]⟩] }

/-- Concrete morph candidate: the same topology as `sampleBase` with the position moved to
`(2, 0, 0)`. -/
def sampleMorph : CObject :=
  { sampleBase with vertices := [⟨2, 0, 0⟩] }

/-- Concrete candidate with mismatched topology: no positions at all. -/
def sampleBad : CObject :=
  { sampleBase with vertices := [] }

/-- Concrete geometry of the planar-quad scenario: two triangles sharing an edge, referencing
four distinct corners through six face-corner references. -/
def sampleQuad : List Geometry :=
  [⟨[.triangle ⟨0, none, none⟩ ⟨1, none, none⟩ ⟨2, none, none⟩,
     .triangle ⟨0, none, none⟩ ⟨2, none, none⟩ ⟨3, none, none⟩]⟩]

/-- Concrete wavefront object over the quad geometry. -/
def sampleObj : OObject :=
  { vertices := [⟨0, 0, 0⟩, ⟨1, 0, 0⟩, ⟨1, 1, 0⟩, ⟨0, 1, 0⟩]
    tex_vertices := []
    normals := []
    geometry := sampleQuad }

/-- Concrete single-frame flat model for the frame-bounds check. -/
def sampleModel : V2Model :=
  { center := ⟨0, 0, 0⟩
    materials := []
    lod_levels := []
    tag_points := []
    frames := [⟨[], [], ⟨0, 0, 0⟩⟩] }

/-- Placement strategy that appends the new table entry at the back — an arbitrary alternative
organization of the hash table, used to witness placement independence. -/
def appendIns {K : Type} (c : K) (n : Nat) (t : List (K × Nat)) : List (K × Nat) :=
  t ++ [(c, n)]

/-! Lemmas about the specification-side reference functions and the modelled hash table. -/

theorem posOf_append_left {K : Type} [DecidableEq K] {c : K} :
    ∀ {l₁ : List K} (l₂ : List K), c ∈ l₁ → posOf (l₁ ++ l₂) c = posOf l₁ c := by
  intro l₁
  induction l₁ with
  | nil => intro l₂ h; exact absurd h (List.not_mem_nil c)
  | cons a l ih =>
      intro l₂ h
      by_cases hac : a = c
      · simp [posOf, hac]
      · have hcl : c ∈ l := by
          rcases List.mem_cons.mp h with h' | h'
          · exact absurd h'.symm hac
          · exact h'
        simp [posOf, hac, ih l₂ hcl]

theorem posOf_append_self {K : Type} [DecidableEq K] {c : K} :
    ∀ {l : List K}, c ∉ l → posOf (l ++ [c]) c = l.length := by
  intro l
  induction l with
  | nil => intro _; simp [posOf]
  | cons a l ih =>
      intro h
      have hac : a ≠ c := fun hEq => h (hEq ▸ List.mem_cons_self a l)
      have hcl : c ∉ l := fun hc => h (List.mem_cons_of_mem a hc)
      simp [posOf, hac, ih hcl]

theorem posOf_get_of_nodup {K : Type} [DecidableEq K] :
    ∀ {l : List K}, l.Nodup → ∀ j : Fin l.length, posOf l (l.get j) = j := by
  intro l
  induction l with
  | nil => intro _ j; exact absurd j.isLt (by simp)
  | cons a l ih =>
      intro hnd j
      rcases j with ⟨jv, hj⟩
      cases jv with
      | zero => simp [posOf]
      | succ n =>
          have hlt : n < l.length := Nat.lt_of_succ_lt_succ hj
          have hmem : l[n] ∈ l := List.getElem_mem hlt
          have hne : a ≠ l[n] := fun hEq => (List.nodup_cons.mp hnd).1 (hEq ▸ hmem)
          have ihn := ih (List.nodup_cons.mp hnd).2 ⟨n, hlt⟩
          simp only [List.get_eq_getElem] at ihn
          simp [posOf, hne, ihn]

theorem mem_firstOccAux {K : Type} [DecidableEq K] (a : K) :
    ∀ (cs acc : List K), a ∈ firstOccAux acc cs ↔ a ∈ acc ∨ a ∈ cs := by
  intro cs
  induction cs with
  | nil => intro acc; simp [firstOccAux]
  | cons c cs ih =>
      intro acc
      by_cases hc : c ∈ acc
      · rw [firstOccAux, if_pos hc, ih]
        constructor
        · rintro (h | h)
          · exact Or.inl h
          · exact Or.inr (List.mem_cons_of_mem c h)
        · rintro (h | h)
          · exact Or.inl h
          · rcases List.mem_cons.mp h with h' | h'
            · exact Or.inl (h' ▸ hc)
            · exact Or.inr h'
      · rw [firstOccAux, if_neg hc, ih]
        simp only [List.mem_append, List.mem_singleton, List.mem_cons]
        tauto

theorem nodup_firstOccAux {K : Type} [DecidableEq K] :
    ∀ (cs acc : List K), acc.Nodup → (firstOccAux acc cs).Nodup := by
  intro cs
  induction cs with
  | nil => intro acc h; exact h
  | cons c cs ih =>
      intro acc h
      by_cases hc : c ∈ acc
      · rw [firstOccAux, if_pos hc]; exact ih acc h
      · rw [firstOccAux, if_neg hc]
        refine ih _ ?_
        exact List.nodup_append.mpr ⟨h, List.nodup_singleton c,
          fun a ha hb => hc ((List.mem_singleton.mp hb) ▸ ha)⟩

theorem firstOccAux_exists_append {K : Type} [DecidableEq K] :
    ∀ (cs acc : List K), ∃ ext, firstOccAux acc cs = acc ++ ext := by
  intro cs
  induction cs with
  | nil => intro acc; exact ⟨[], by simp [firstOccAux]⟩
  | cons c cs ih =>
      intro acc
      by_cases hc : c ∈ acc
      · rw [firstOccAux, if_pos hc]; exact ih acc
      · rw [firstOccAux, if_neg hc]
        rcases ih (acc ++ [c]) with ⟨ext, hext⟩
        exact ⟨[c] ++ ext, by rw [hext, List.append_assoc]⟩

theorem firstOcc_length_eq_card {K : Type} [DecidableEq K] (cs : List K) :
    (firstOcc cs).length = cs.toFinset.card := by
  have hnd : (firstOcc cs).Nodup := nodup_firstOccAux cs [] List.nodup_nil
  have hset : (firstOcc cs).toFinset = cs.toFinset := by
    apply Finset.ext
    intro a
    rw [List.mem_toFinset, List.mem_toFinset, firstOcc, mem_firstOccAux]
    simp
  rw [← List.toFinset_card_of_nodup hnd, hset]

theorem lookupKey_eq_none_iff {K : Type} [DecidableEq K] :
    ∀ (t : List (K × Nat)) (c : K), lookupKey t c = none ↔ c ∉ t.map Prod.fst := by
  intro t
  induction t with
  | nil => intro c; simp [lookupKey]
  | cons e t ih =>
      intro c
      by_cases he : e.1 = c
      · simp [lookupKey, he]
      · simp [lookupKey, he, ih c, Ne.symm he]

theorem lookupKey_perm {K : Type} [DecidableEq K] {t₁ t₂ : List (K × Nat)}
    (h : t₁.Perm t₂) (hnd : NodupKeys t₂) : ∀ c, lookupKey t₁ c = lookupKey t₂ c := by
  induction h with
  | nil => intro c; rfl
  | cons x h ih =>
      intro c
      have hnd' : NodupKeys _ := (List.nodup_cons.mp hnd).2
      by_cases hx : x.1 = c
      · simp [lookupKey, hx]
      · simp [lookupKey, hx, ih hnd' c]
  | swap x y l =>
      intro c
      have hxy : y.1 ≠ x.1 := by
        have := (List.nodup_cons.mp hnd).1
        simp only [List.map_cons, List.mem_cons] at this
        intro hEq
        exact this (Or.inl hEq.symm)
      by_cases hy : y.1 = c
      · have hx : x.1 ≠ c := fun hEq => hxy (hy.trans hEq.symm)
        simp [lookupKey, hy, hx]
      · by_cases hx : x.1 = c
        · simp [lookupKey, hx, hy]
        · simp [lookupKey, hx, hy]
  | trans h₁ h₂ ih₁ ih₂ =>
      intro c
      have hndMid := ((h₂.map Prod.fst).nodup_iff).mpr hnd
      rw [ih₁ hndMid c, ih₂ hnd c]

theorem emptyDedup_inv (K : Type) [DecidableEq K] : DedupInv (emptyDedup K) := by
  intro c
  simp [lookupKey, emptyDedup]

theorem dedupList_cons {K : Type} [DecidableEq K] (st : DedupState K) (c : K) (cs : List K) :
    dedupList st (c :: cs) =
      ((dedupInsert st c).1 :: (dedupList (dedupInsert st c).2 cs).1,
       (dedupList (dedupInsert st c).2 cs).2) := rfl

theorem dedupInsert_spec {K : Type} [DecidableEq K] {st : DedupState K}
    (h : DedupInv st) (c : K) :
    (dedupInsert st c).2.associations =
      (if c ∈ st.associations then st.associations else st.associations ++ [c]) ∧
    DedupInv (dedupInsert st c).2 ∧
    c ∈ (dedupInsert st c).2.associations ∧
    (dedupInsert st c).1 = posOf (dedupInsert st c).2.associations c := by
  by_cases hc : c ∈ st.associations
  · have hl : lookupKey st.reverse c = some (posOf st.associations c) := by
      rw [h c, if_pos hc]
    refine ⟨by simp [dedupInsert, hl, hc], ?_, by simp [dedupInsert, hl, hc],
      by simp [dedupInsert, hl]⟩
    simpa [dedupInsert, hl] using h
  · have hl : lookupKey st.reverse c = none := by rw [h c, if_neg hc]
    refine ⟨by simp [dedupInsert, hl, hc], ?_, by simp [dedupInsert, hl],
      by simp [dedupInsert, hl, posOf_append_self hc]⟩
    intro d
    simp only [dedupInsert, hl]
    by_cases hdc : c = d
    · subst hdc
      simp [lookupKey, posOf_append_self hc]
    · have hmem : (d ∈ st.associations ++ [c]) ↔ d ∈ st.associations := by
        rw [List.mem_append, List.mem_singleton]
        constructor
        · rintro (hd | hd)
          · exact hd
          · exact absurd hd.symm hdc
        · exact Or.inl
      simp only [lookupKey, if_neg hdc]
      rw [h d]
      by_cases hd : d ∈ st.associations
      · rw [if_pos hd, if_pos (hmem.mpr hd), posOf_append_left _ hd]
      · rw [if_neg hd, if_neg (fun hx => hd (hmem.mp hx))]

theorem dedupList_spec {K : Type} [DecidableEq K] :
    ∀ (cs : List K) (st : DedupState K), DedupInv st →
      (dedupList st cs).2.associations = firstOccAux st.associations cs ∧
      DedupInv (dedupList st cs).2 ∧
      (∃ ext, (dedupList st cs).2.associations = st.associations ++ ext) ∧
      (dedupList st cs).1 = cs.map (posOf (dedupList st cs).2.associations) := by
  intro cs
  induction cs with
  | nil => intro st h; exact ⟨rfl, h, ⟨[], by simp [dedupList]⟩, rfl⟩
  | cons c cs ih =>
      intro st h
      rcases dedupInsert_spec h c with ⟨hassoc, hinv, hmem, hidx⟩
      rcases ih (dedupInsert st c).2 hinv with ⟨ihassoc, ihinv, ⟨ext, hext⟩, ihidx⟩
      rw [dedupList_cons]
      refine ⟨?_, ihinv, ?_, ?_⟩
      · rw [ihassoc, hassoc, firstOccAux]
      · rcases hassoc ▸ hext with hext'
        by_cases hc : c ∈ st.associations
        · exact ⟨ext, by rwa [if_pos hc] at hext'⟩
        · rw [if_neg hc, List.append_assoc] at hext'
          exact ⟨[c] ++ ext, hext'⟩
      · simp only [List.map_cons]
        rw [ihidx, hidx, hext, posOf_append_left _ hmem]

theorem dedupList_append {K : Type} [DecidableEq K] :
    ∀ (cs₁ cs₂ : List K) (st : DedupState K),
      dedupList st (cs₁ ++ cs₂) =
        ((dedupList st cs₁).1 ++ (dedupList (dedupList st cs₁).2 cs₂).1,
         (dedupList (dedupList st cs₁).2 cs₂).2) := by
  intro cs₁
  induction cs₁ with
  | nil => intro cs₂ st; simp [dedupList]
  | cons c cs ih =>
      intro cs₂ st
      rw [List.cons_append, dedupList_cons, dedupList_cons, ih]
      simp

theorem flattenTris_append (l₁ l₂ : List (Nat × Nat × Nat)) :
    flattenTris (l₁ ++ l₂) = flattenTris l₁ ++ flattenTris l₂ := by
  simp [flattenTris]

theorem shapeStep_spec {K : Type} [DecidableEq K] (keyOf : VTN → K)
    (acc : List (Nat × Nat × Nat) × DedupState K) (s : Shape) :
    (shapeStep keyOf acc s).2 = (dedupList acc.2 ((shapeCorners s).map keyOf)).2 ∧
    flattenTris (shapeStep keyOf acc s).1 =
      flattenTris acc.1 ++ (dedupList acc.2 ((shapeCorners s).map keyOf)).1 := by
  cases s with
  | triangle a b c =>
      constructor
      · simp [shapeStep, shapeCorners, dedupList]
      · simp [shapeStep, shapeCorners, dedupList, flattenTris]
  | point a =>
      exact ⟨by simp [shapeStep, shapeCorners, dedupList],
        by simp [shapeStep, shapeCorners, dedupList]⟩
  | line a b =>
      exact ⟨by simp [shapeStep, shapeCorners, dedupList],
        by simp [shapeStep, shapeCorners, dedupList]⟩

theorem shapesFold_spec {K : Type} [DecidableEq K] (keyOf : VTN → K) :
    ∀ (shapes : List Shape) (acc : List (Nat × Nat × Nat) × DedupState K),
      (shapes.foldl (shapeStep keyOf) acc).2 =
        (dedupList acc.2 ((shapes.flatMap shapeCorners).map keyOf)).2 ∧
      flattenTris (shapes.foldl (shapeStep keyOf) acc).1 =
        flattenTris acc.1 ++ (dedupList acc.2 ((shapes.flatMap shapeCorners).map keyOf)).1 := by
  intro shapes
  induction shapes with
  | nil => intro acc; simp [dedupList]
  | cons s shapes ih =>
      intro acc
      rcases shapeStep_spec keyOf acc s with ⟨hst, htris⟩
      rcases ih (shapeStep keyOf acc s) with ⟨ihst, ihtris⟩
      have hsplit : ((s :: shapes).flatMap shapeCorners).map keyOf =
          (shapeCorners s).map keyOf ++ (shapes.flatMap shapeCorners).map keyOf := by
        simp
      rw [List.foldl_cons]
      refine ⟨?_, ?_⟩
      · rw [ihst, hst, hsplit, dedupList_append]
      · rw [ihtris, htris, hsplit, dedupList_append, hst, List.append_assoc]

theorem triangleWalk_spec {K : Type} [DecidableEq K] (keyOf : VTN → K)
    (geoms : List Geometry) :
    (triangleWalk keyOf geoms).2 =
      (dedupList (emptyDedup K) ((cornerList geoms).map keyOf)).2 ∧
    flattenTris (triangleWalk keyOf geoms).1 =
      (dedupList (emptyDedup K) ((cornerList geoms).map keyOf)).1 := by
  have main : ∀ (gs : List Geometry) (acc : List (Nat × Nat × Nat) × DedupState K),
      (gs.foldl (fun acc g => g.shapes.foldl (shapeStep keyOf) acc) acc).2 =
        (dedupList acc.2 ((cornerList gs).map keyOf)).2 ∧
      flattenTris (gs.foldl (fun acc g => g.shapes.foldl (shapeStep keyOf) acc) acc).1 =
        flattenTris acc.1 ++ (dedupList acc.2 ((cornerList gs).map keyOf)).1 := by
    intro gs
    induction gs with
    | nil => intro acc; simp [cornerList, dedupList]
    | cons g gs ih =>
        intro acc
        rcases shapesFold_spec keyOf g.shapes acc with ⟨hst, htris⟩
        rcases ih (g.shapes.foldl (shapeStep keyOf) acc) with ⟨ihst, ihtris⟩
        have hsplit : (cornerList (g :: gs)).map keyOf =
            (g.shapes.flatMap shapeCorners).map keyOf ++ (cornerList gs).map keyOf := by
          simp [cornerList]
        rw [List.foldl_cons]
        refine ⟨?_, ?_⟩
        · rw [ihst, hst, hsplit, dedupList_append]
        · rw [ihtris, htris, hsplit, dedupList_append, hst, List.append_assoc]
  rcases main geoms ([], emptyDedup K) with ⟨hst, htris⟩
  exact ⟨hst, by simpa [flattenTris] using htris⟩

theorem optGetD_inj {d : Nat} {o₁ o₂ : Option Nat}
    (h₁ : ∀ t, o₁ = some t → t < d) (h₂ : ∀ t, o₂ = some t → t < d)
    (h : o₁.getD d = o₂.getD d) : o₁ = o₂ := by
  cases o₁ with
  | none =>
      cases o₂ with
      | none => rfl
      | some t =>
          exfalso
          have hlt := h₂ t rfl
          simp [Option.getD] at h
          omega
  | some t =>
      cases o₂ with
      | none =>
          exfalso
          have hlt := h₁ t rfl
          simp [Option.getD] at h
          omega
      | some t' =>
          simp [Option.getD] at h
          rw [h]

theorem validCorner_tex {tl nl : Nat} {v : VTN} (h : validCorner tl nl v = true) :
    ∀ t, v.tex = some t → t < tl := by
  intro t ht
  rcases Bool.and_eq_true_iff.mp h with ⟨h1, _⟩
  rw [ht] at h1
  exact of_decide_eq_true h1

theorem validCorner_norm {tl nl : Nat} {v : VTN} (h : validCorner tl nl v = true) :
    ∀ n, v.norm = some n → n < nl := by
  intro n hn
  rcases Bool.and_eq_true_iff.mp h with ⟨_, h2⟩
  rw [hn] at h2
  exact of_decide_eq_true h2

theorem canon_injOn {tl nl : Nat} {cs : List VTN}
    (hvalid : ∀ v ∈ cs, validCorner tl nl v = true) :
    Set.InjOn (canon tl nl) ↑cs.toFinset := by
  intro v₁ hv₁ v₂ hv₂ h
  have hm₁ : v₁ ∈ cs := List.mem_toFinset.mp hv₁
  have hm₂ : v₂ ∈ cs := List.mem_toFinset.mp hv₂
  have hc := Prod.mk.injEq .. ▸ h
  simp only [canon, Prod.mk.injEq] at hc
  rcases hc with ⟨hpos, htex, hnorm⟩
  cases v₁ with
  | mk p₁ t₁ n₁ =>
      cases v₂ with
      | mk p₂ t₂ n₂ =>
          simp only at hpos htex hnorm
          have ht : t₁ = t₂ := optGetD_inj
            (validCorner_tex (hvalid _ hm₁)) (validCorner_tex (hvalid _ hm₂)) htex
          have hn : n₁ = n₂ := optGetD_inj
            (validCorner_norm (hvalid _ hm₁)) (validCorner_norm (hvalid _ hm₂)) hnorm
          rw [hpos, ht, hn]

theorem toFinset_list_map {α β : Type} [DecidableEq α] [DecidableEq β]
    (f : α → β) (l : List α) : (l.map f).toFinset = l.toFinset.image f := by
  apply Finset.ext
  intro b
  simp [List.mem_toFinset, Finset.mem_image, List.mem_map]

theorem walk_associations_firstOcc {K : Type} [DecidableEq K] (keyOf : VTN → K)
    (geoms : List Geometry) :
    (triangleWalk keyOf geoms).2.associations = firstOcc ((cornerList geoms).map keyOf) := by
  rcases triangleWalk_spec keyOf geoms with ⟨hst, _⟩
  rcases dedupList_spec ((cornerList geoms).map keyOf) (emptyDedup K) (emptyDedup_inv K)
    with ⟨hassoc, _, _, _⟩
  rw [hst, hassoc]
  rfl

theorem walk_indices_posOf {K : Type} [DecidableEq K] (keyOf : VTN → K)
    (geoms : List Geometry) :
    flattenTris (triangleWalk keyOf geoms).1 =
      ((cornerList geoms).map keyOf).map
        (posOf (firstOcc ((cornerList geoms).map keyOf))) := by
  rcases triangleWalk_spec keyOf geoms with ⟨_, htris⟩
  rcases dedupList_spec ((cornerList geoms).map keyOf) (emptyDedup K) (emptyDedup_inv K)
    with ⟨hassoc, _, _, hidx⟩
  rw [htris, hidx, hassoc]
  rfl

/-- C2: for every split-indexed input and either grammar's table key, the dedup walk assigns
flat indices sequentially from 0 in first-encounter order over the face-corner list: the
association list is exactly the first-occurrence subsequence of the visited keys, every corner
resolves to the position of its key in that list, and the j-th first-encountered key holds flat
index j — the order is derived from the walk, never from table iteration or any sort. -/
theorem claim_C2 {K : Type} [DecidableEq K] (keyOf : VTN → K) (geoms : List Geometry) :
    (triangleWalk keyOf geoms).2.associations = firstOcc ((cornerList geoms).map keyOf) ∧
    flattenTris (triangleWalk keyOf geoms).1 =
      ((cornerList geoms).map keyOf).map
        (posOf (firstOcc ((cornerList geoms).map keyOf))) ∧
    ∀ j : Fin (firstOcc ((cornerList geoms).map keyOf)).length,
      posOf (firstOcc ((cornerList geoms).map keyOf))
        ((firstOcc ((cornerList geoms).map keyOf)).get j) = j :=
  ⟨walk_associations_firstOcc keyOf geoms, walk_indices_posOf keyOf geoms,
   posOf_get_of_nodup (nodup_firstOccAux _ [] List.nodup_nil)⟩

/-- C1: the flat vertex count equals the number of distinct canonical triples referenced by the
face corners, never the corner count. For the COLLADA path this holds for every input; for the
OBJ path — whose table is keyed on the raw split index and whose array indexing requires the
references to be in range — it holds for every well-formed input. -/
theorem claim_C1 (object : CObject) (i : OObject)
    (hvalid : ∀ v ∈ cornerList i.geometry,
      validCorner i.tex_vertices.length i.normals.length v = true) :
    (colladaAssociations object).length =
      ((cornerList object.geometry).map
        (canon object.tex_vertices.length object.normals.length)).toFinset.card ∧
    (objFlatVertices i).length =
      ((cornerList i.geometry).map
        (canon i.tex_vertices.length i.normals.length)).toFinset.card := by
  constructor
  · have h := walk_associations_firstOcc
      (canon object.tex_vertices.length object.normals.length) object.geometry
    rw [colladaAssociations, h, firstOcc_length_eq_card]
  · have h := walk_associations_firstOcc (fun v => v) i.geometry
    have hlen : (objFlatVertices i).length =
        (firstOcc ((cornerList i.geometry).map fun v => v)).length := by
      rw [objFlatVertices, List.length_map, h]
    have hid : (cornerList i.geometry).map (fun v => v) = cornerList i.geometry :=
      List.map_id' (cornerList i.geometry)
    rw [hlen, hid, firstOcc_length_eq_card, toFinset_list_map,
      Finset.card_image_of_injOn (canon_injOn hvalid)]

/-- Witness for C1: the planar quad of the spec's scenario section — two triangles sharing an
edge, six face-corner references — yields four flat vertices on both paths. -/
theorem claim_C1_witness :
    (colladaAssociations sampleBase).length = 1 ∧ (objFlatVertices sampleObj).length = 4 := by
  rcases claim_C1 sampleBase sampleObj (by decide) with ⟨h1, h2⟩
  constructor
  · rw [h1]; decide
  · rw [h2]; decide

theorem dedupListW_cons {K : Type} [DecidableEq K]
    (ins : K → Nat → List (K × Nat) → List (K × Nat)) (st : DedupState K) (c : K)
    (cs : List K) :
    dedupListW ins st (c :: cs) =
      ((dedupInsertW ins st c).1 :: (dedupListW ins (dedupInsertW ins st c).2 cs).1,
       (dedupListW ins (dedupInsertW ins st c).2 cs).2) := rfl

theorem dedupInsertW_agree {K : Type} [DecidableEq K]
    {ins : K → Nat → List (K × Nat) → List (K × Nat)}
    (hins : ∀ c n t, (ins c n t).Perm ((c, n) :: t)) {st stW : DedupState K}
    (hassoc : stW.associations = st.associations) (hperm : stW.reverse.Perm st.reverse)
    (hnd : NodupKeys st.reverse) (c : K) :
    (dedupInsertW ins stW c).1 = (dedupInsert st c).1 ∧
    (dedupInsertW ins stW c).2.associations = (dedupInsert st c).2.associations ∧
    (dedupInsertW ins stW c).2.reverse.Perm (dedupInsert st c).2.reverse ∧
    NodupKeys (dedupInsert st c).2.reverse := by
  have hl : lookupKey stW.reverse c = lookupKey st.reverse c := lookupKey_perm hperm hnd c
  cases hcase : lookupKey st.reverse c with
  | some i =>
      rw [dedupInsertW, dedupInsert, hl, hcase]
      exact ⟨rfl, hassoc, hperm, hnd⟩
  | none =>
      rw [dedupInsertW, dedupInsert, hl, hcase]
      refine ⟨by rw [hassoc], by rw [hassoc], ?_, ?_⟩
      · rw [hassoc]
        exact (hins c st.associations.length stW.reverse).trans (List.Perm.cons _ hperm)
      · have hnotin : c ∉ st.reverse.map Prod.fst := (lookupKey_eq_none_iff _ c).mp hcase
        exact List.nodup_cons.mpr ⟨hnotin, hnd⟩

theorem dedupListW_agree {K : Type} [DecidableEq K]
    {ins : K → Nat → List (K × Nat) → List (K × Nat)}
    (hins : ∀ c n t, (ins c n t).Perm ((c, n) :: t)) :
    ∀ (cs : List K) {st stW : DedupState K},
      stW.associations = st.associations → stW.reverse.Perm st.reverse →
      NodupKeys st.reverse →
      (dedupListW ins stW cs).1 = (dedupList st cs).1 ∧
      (dedupListW ins stW cs).2.associations = (dedupList st cs).2.associations := by
  intro cs
  induction cs with
  | nil => intro st stW hassoc _ _; exact ⟨rfl, hassoc⟩
  | cons c cs ih =>
      intro st stW hassoc hperm hnd
      rcases dedupInsertW_agree hins hassoc hperm hnd c with ⟨h1, h2, h3, h4⟩
      rcases ih h2 h3 h4 with ⟨ih1, ih2⟩
      rw [dedupListW_cons, dedupList_cons]
      exact ⟨by rw [h1, ih1], ih2⟩

/-- C8: the conversion is a pure function of its parsed input and in particular independent of
the hash table's internal organization: any entry-placement strategy equivalent to inserting
the new binding (the unspecified `HashMap` layout, modelled up to permutation) yields flat-index
assignments and an association list identical to the canonical run, so converting identical
input twice — under any and the same or different layouts — produces identical output. -/
theorem claim_C8 {K : Type} [DecidableEq K]
    (ins : K → Nat → List (K × Nat) → List (K × Nat))
    (hins : ∀ c n t, (ins c n t).Perm ((c, n) :: t)) (cs : List K) :
    (dedupListW ins (emptyDedup K) cs).1 = (dedupList (emptyDedup K) cs).1 ∧
    (dedupListW ins (emptyDedup K) cs).2.associations =
      (dedupList (emptyDedup K) cs).2.associations :=
  dedupListW_agree hins cs rfl (List.Perm.refl _) List.nodup_nil

/-- Witness for C8: placing new table entries at the back instead of the front leaves the index
assignment of a run with a repeated key unchanged, and that assignment is the first-encounter
one. -/
theorem claim_C8_witness :
    ((dedupListW appendIns (emptyDedup (Nat × Nat × Nat))
        [(0, 0, 0), (1, 2, 3), (0, 0, 0)]).1 =
      (dedupList (emptyDedup (Nat × Nat × Nat)) [(0, 0, 0), (1, 2, 3), (0, 0, 0)]).1) ∧
    (dedupListW appendIns (emptyDedup (Nat × Nat × Nat))
        [(0, 0, 0), (1, 2, 3), (0, 0, 0)]).1 = [0, 1, 0] :=
  ⟨(claim_C8 appendIns (fun c n t => List.perm_append_singleton (c, n) t) _).1, by decide⟩

theorem validateFramesAux_all {object : CObject} :
    ∀ (frames : List CObject) (k : Nat), (∀ f ∈ frames, frameMatches object f = true) →
      validateFramesAux object k frames = none := by
  intro frames
  induction frames with
  | nil => intro k _; rfl
  | cons f frames ih =>
      intro k h
      rw [validateFramesAux, if_pos (h f (List.mem_cons_self f frames))]
      exact ih (k + 1) fun g hg => h g (List.mem_cons_of_mem f hg)

theorem validateFramesAux_first_fail {object bad : CObject}
    (hbad : frameMatches object bad = false) :
    ∀ (good rest : List CObject) (k : Nat), (∀ g ∈ good, frameMatches object g = true) →
      validateFramesAux object k (good ++ bad :: rest) = some (k + good.length) := by
  intro good
  induction good with
  | nil =>
      intro rest k _
      rw [List.nil_append, validateFramesAux, if_neg (by rw [hbad]; exact Bool.false_ne_true)]
      rfl
  | cons g good ih =>
      intro rest k h
      rw [List.cons_append, validateFramesAux,
        if_pos (h g (List.mem_cons_self g good)),
        ih rest (k + 1) fun g' hg' => h g' (List.mem_cons_of_mem g hg')]
      congr 1
      simp [List.length_cons]
      omega

/-- C3: frame-topology validation fails on the first candidate whose attribute-array counts or
face-primitive list differ from the base's, reporting that candidate's zero-based position, and
its verdict is independent of every later candidate; when all candidates match it succeeds. -/
theorem claim_C3 (object bad : CObject) (good rest frames : List CObject)
    (hgood : ∀ g ∈ good, frameMatches object g = true)
    (hbad : frameMatches object bad = false)
    (hall : ∀ f ∈ frames, frameMatches object f = true) :
    validateFrames object (good ++ bad :: rest) = some good.length ∧
    validateFrames object frames = none := by
  constructor
  · rw [validateFrames, validateFramesAux_first_fail hbad good rest 0 hgood]
    rw [Nat.zero_add]
  · exact validateFramesAux_all frames 0 hall

/-- Witness for C3: with one matching candidate ahead of it, the mismatching candidate (no
positions at all) is reported at index 1 whatever follows it, and a run of matching candidates
validates. -/
theorem claim_C3_witness :
    validateFrames sampleBase ([sampleMorph] ++ sampleBad :: [sampleBase]) = some 1 ∧
    validateFrames sampleBase [sampleMorph] = none := by
  have h := claim_C3 sampleBase sampleBad [sampleMorph] [sampleBase] [sampleMorph]
    (by decide) (by decide) (by decide)
  exact h

/-- C4: the import axis transform (rotation by 90 degrees about the X axis, applied as a full
affine transform to positions through homogeneous coordinates and as a direction-only
transform to normals) and the export axis transform (rotation by -90 degrees) are exact
inverses in both composition orders; in the exact-arithmetic idealization of the f32 rotation
the round trip is the identity, which is the floating-point claim up to rounding. -/
theorem claim_C4 (p d : V3) :
    exportPoint (importPoint p) = p ∧ importPoint (exportPoint p) = p ∧
    exportDir (importDir d) = d ∧ importDir (exportDir d) = d := by
  cases p with
  | mk px py pz =>
      cases d with
      | mk dx dy dz =>
          refine ⟨?_, ?_, ?_, ?_⟩ <;>
            simp [exportPoint, importPoint, exportDir, importDir, transformPoint,
              transformDir, fromHomogeneous, toHomogeneous, fromAngleX, extend, truncate]

/-- C5: two independent defaults, each for every corner regardless of the other reference — a
split corner with no texture reference materializes the grammar's fixed default texture
coordinate, u = 0, v = 0, read before the COLLADA V-axis flip, and a split corner with no
normal reference materializes the fixed default direction (1, 0, 0), read before normalization
and the axis transform; on the COLLADA path the missing reference reaches the fetch as the
canonical sentinel index, one past the end of the respective source array, where the indexed
read falls back to the same defaults. -/
theorem claim_C5 (texs : List TVertex) (norms : List V3) (ctexs : List CTVertex)
    (cnorms : List V3) (v : VTN) :
    (v.tex = none → objFetchTexture texs v = ⟨0, 0, 0⟩) ∧
    (v.norm = none → objFetchNormal norms v = ⟨1, 0, 0⟩) ∧
    (v.tex = none →
      (canon ctexs.length cnorms.length v).2.1 = ctexs.length ∧
      colladaFetchTexture ctexs (canon ctexs.length cnorms.length v).2.1 = ⟨0, 0⟩) ∧
    (v.norm = none →
      (canon ctexs.length cnorms.length v).2.2 = cnorms.length ∧
      colladaFetchNormal cnorms (canon ctexs.length cnorms.length v).2.2 = ⟨1, 0, 0⟩) := by
  refine ⟨?_, ?_, ?_, ?_⟩
  · intro htex
    rw [objFetchTexture, htex]; rfl
  · intro hnorm
    rw [objFetchNormal, hnorm]; rfl
  · intro htex
    refine ⟨by rw [canon, htex]; rfl, ?_⟩
    rw [colladaFetchTexture, canon, htex]
    exact List.getD_eq_default _ _ (Nat.le_refl _)
  · intro hnorm
    refine ⟨by rw [canon, hnorm]; rfl, ?_⟩
    rw [colladaFetchNormal, canon, hnorm]
    exact List.getD_eq_default _ _ (Nat.le_refl _)

/-- Witness for C5: mixed corners, each missing only one reference — a corner with a normal but
no texture (the OBJ `f v//vn` shape) resolves to the default texture coordinate, and a corner
with a texture but no normal resolves to the default direction, even though the source arrays
hold other values. -/
theorem claim_C5_witness :
    objFetchTexture [⟨5, 6, 7⟩] ⟨0, none, some 0⟩ = ⟨0, 0, 0⟩ ∧
    objFetchNormal [⟨0, 1, 0⟩] ⟨0, some 0, none⟩ = ⟨1, 0, 0⟩ ∧
    colladaFetchTexture [⟨5, 6⟩]
      (canon [(⟨5, 6⟩ : CTVertex)].length [(⟨0, 1, 0⟩ : V3)].length ⟨0, none, some 0⟩).2.1 =
      ⟨0, 0⟩ ∧
    colladaFetchNormal [⟨0, 1, 0⟩]
      (canon [(⟨5, 6⟩ : CTVertex)].length [(⟨0, 1, 0⟩ : V3)].length ⟨0, some 0, none⟩).2.2 =
      ⟨1, 0, 0⟩ :=
  ⟨(claim_C5 [⟨5, 6, 7⟩] [⟨0, 1, 0⟩] [⟨5, 6⟩] [⟨0, 1, 0⟩] ⟨0, none, some 0⟩).1 rfl,
   (claim_C5 [⟨5, 6, 7⟩] [⟨0, 1, 0⟩] [⟨5, 6⟩] [⟨0, 1, 0⟩] ⟨0, some 0, none⟩).2.1 rfl,
   ((claim_C5 [⟨5, 6, 7⟩] [⟨0, 1, 0⟩] [⟨5, 6⟩] [⟨0, 1, 0⟩] ⟨0, none, some 0⟩).2.2.1 rfl).2,
   ((claim_C5 [⟨5, 6, 7⟩] [⟨0, 1, 0⟩] [⟨5, 6⟩] [⟨0, 1, 0⟩] ⟨0, some 0, none⟩).2.2.2 rfl).2⟩

theorem stringJoin_foldl : ∀ (l : List String) (a : String),
    l.foldl (· ++ ·) a = a ++ String.join l := by
  intro l
  induction l with
  | nil => intro a; exact (String.append_empty a).symm
  | cons b l ih =>
      intro a
      have hjoin : String.join (b :: l) = b ++ String.join l := by
        rw [String.join, List.foldl_cons, String.empty_append, ih b]
      rw [List.foldl_cons, ih (a ++ b), hjoin, String.append_assoc]

theorem stringFoldl_map_join (f : Nat → String) :
    ∀ (l : List Nat) (s : String),
      l.foldl (fun acc i => acc ++ f i) s = s ++ String.join (l.map f) := by
  intro l
  induction l with
  | nil => intro s; exact (String.append_empty s).symm
  | cons i l ih =>
      intro s
      have hjoin : String.join (f i :: l.map f) = f i ++ String.join (l.map f) := by
        rw [String.join, List.foldl_cons, String.empty_append, stringJoin_foldl]
      rw [List.map_cons, List.foldl_cons, ih (s ++ f i), hjoin, String.append_assoc]

/-- C9: each emitted face corner references one and the same flat index in all three semantic
slots: the OBJ emitter's face line writes the 1-based index `vertex_offset + corner + 1` into
the position, texture and normal slot of every corner, and the COLLADA emitter's `p` body is
the concatenation of one triple token per corner, the corner's index repeated for the
VERTEX/NORMAL/TEXCOORD inputs. -/
theorem claim_C9 (vertex_offset : Nat) (triangle : Nat × Nat × Nat) (polygons : List Nat) :
    objFaceLine vertex_offset triangle =
      "f " ++ slash3 (vertex_offset + triangle.1 + 1) ++ " " ++
        slash3 (vertex_offset + triangle.2.1 + 1) ++ " " ++
        slash3 (vertex_offset + triangle.2.2 + 1) ++ "\n" ∧
    colladaPolyBody polygons = String.join (polygons.map tripleTok) := by
  constructor
  · simp [objFaceLine, slash3, String.append_assoc]
  · have hfun : (fun (s : String) (index : Nat) =>
        s ++ toString index ++ " " ++ toString index ++ " " ++ toString index ++ " ") =
        fun (s : String) (index : Nat) => s ++ tripleTok index := by
      funext s index
      simp [tripleTok, String.append_assoc]
    rw [colladaPolyBody, hfun]
    have h := stringFoldl_map_join tripleTok polygons ""
    rw [String.empty_append] at h
    exact h

/-- C10: extracting a frame index at or past the model's frame count from a runtime model is an
invalid-input error whose message names both the requested index and the frame count, and the
conversion produces no output text. -/
theorem claim_C10 (frame_index : Nat) (model : V2Model)
    (h : frame_index ≥ model.frames.length) :
    convertCemToObj frame_index model =
      .error ("Tried to extract frame index " ++ toString frame_index ++
        " from a CEM file that only has " ++ toString model.frames.length ++ " frames") := by
  rw [convertCemToObj, if_pos h]

/-- Witness for C10: asking for frame 2 of a one-frame model yields exactly the diagnostic
naming both numbers. -/
theorem claim_C10_witness :
    convertCemToObj 2 sampleModel =
      .error "Tried to extract frame index 2 from a CEM file that only has 1 frames" := by
  rw [claim_C10 2 sampleModel (by decide)]
  rfl

/-- Counterexample to C7: the conversion with a recognized output token and the explicitly
supplied input-format token "bogus" — which `Format.parse` rejects — is not a fatal usage
error: format resolution succeeds and silently substitutes the runtime model format. -/
theorem claim_C7_cex :
    Format.parse "bogus" none = none ∧
    resolveFormats "obj" (some "bogus") none = .ok (Format.cem (2, 0) 0, Format.obj) :=
  ⟨rfl, rfl⟩

/-- C7 (amended): an unrecognized output-format token is a fatal usage error and the conversion
does not proceed; the input format falls back to the runtime model format (CEM v2 at the
requested frame index) both when the flag is absent and when its token is unrecognized. -/
theorem claim_C7 (format : String) (input_format : Option String)
    (frame_index : Option Nat) :
    (Format.parse format frame_index = none →
      resolveFormats format input_format frame_index =
        .error ("Unrecognized output format \"" ++ format ++ "\"")) ∧
    (∀ f, Format.parse format frame_index = some f →
      resolveFormats format input_format frame_index =
        .ok (resolveInputFormat input_format frame_index, f)) ∧
    (Format.parse (input_format.getD "") frame_index = none →
      resolveInputFormat input_format frame_index =
        Format.cem (2, 0) (frame_index.getD 0)) := by
  refine ⟨?_, ?_, ?_⟩
  · intro h; rw [resolveFormats, h]
  · intro f h; rw [resolveFormats, h]
  · intro h; rw [resolveInputFormat, h]

/-- Witness for C7 (amended): the unrecognized output token "bogus" aborts with the usage
diagnostic, and the explicitly supplied unrecognized input token "alsobogus" falls back to CEM
v2 at frame 0. -/
theorem claim_C7_witness :
    resolveFormats "bogus" (some "alsobogus") none =
      .error "Unrecognized output format \"bogus\"" ∧
    resolveInputFormat (some "alsobogus") none = Format.cem (2, 0) 0 := by
  have h := claim_C7 "bogus" (some "alsobogus") none
  exact ⟨(h.1 rfl).trans rfl, (h.2.2 rfl).trans rfl⟩

theorem extract_frame_frame_center (f : CObject) (indices : List (Nat × Nat × Nat))
    (tags : List V3) :
    (extract_frame f indices tags).2.center = (extract_frame f indices tags).1 := rfl

theorem center_single (p : V3) : (CenterBuilder.begin.update p).build = p := by
  cases p with
  | mk a b c =>
      simp only [CenterBuilder.begin, CenterBuilder.update, CenterBuilder.build]
      have h : ∀ q : ℚ, (q + q) / 2 = q := fun q => by ring
      rw [h, h, h]

theorem extract_frame_single_center (o : CObject) (idx : Nat × Nat × Nat)
    (tags : List V3) :
    (extract_frame o [idx] tags).1 = importPoint (o.vertices.getD idx.1 ⟨0, 0, 0⟩) :=
  center_single (importPoint (o.vertices.getD idx.1 ⟨0, 0, 0⟩))

theorem importPoint_axis (a : ℚ) : importPoint ⟨a, 0, 0⟩ = ⟨a, 0, 0⟩ := by
  simp [importPoint, transformPoint, fromHomogeneous, toHomogeneous, fromAngleX]

theorem colladaConvert_ok (object : CObject) (object_frames : List CObject)
    (h : validateFrames object object_frames = none) :
    colladaConvert object object_frames = .ok
      { center := (extract_frame object (colladaAssociations object) []).1
        materials := [{ name := ""
                        texture := 0
                        triangles := [{ offset := 0
                                        len := (triangleWalk (canon object.tex_vertices.length
                                          object.normals.length) object.geometry).1.length }]
                        vertex_offset := 0
                        vertex_count := (colladaAssociations object).length
                        texture_name := "" }]
        lod_levels := [(triangleWalk (canon object.tex_vertices.length
          object.normals.length) object.geometry).1]
        tag_points := []
        frames := (extract_frame object (colladaAssociations object) []).2 ::
          object_frames.map fun f => (extract_frame f (colladaAssociations object) []).2 } := by
  simp only [colladaConvert, h]
  rfl

/-- C6 (amended): the model-level center of a COLLADA import is the one computed from the base
frame's positions, but every frame — the base and each additional morph frame alike — is built
with a center recomputed from that frame's own positions by its own `extract_frame` pass; the
base frame's center is not reused for the additional frames. -/
theorem claim_C6 (object : CObject) (object_frames : List CObject)
    (h : validateFrames object object_frames = none) :
    ∃ m, colladaConvert object object_frames = .ok m ∧
      m.center = (extract_frame object (colladaAssociations object) []).1 ∧
      m.frames = (extract_frame object (colladaAssociations object) []).2 ::
        object_frames.map (fun f => (extract_frame f (colladaAssociations object) []).2) ∧
      ∀ (f : CObject) (indices : List (Nat × Nat × Nat)) (tags : List V3),
        (extract_frame f indices tags).2.center = (extract_frame f indices tags).1 :=
  ⟨_, colladaConvert_ok object object_frames h, rfl, rfl,
   fun f indices tags => extract_frame_frame_center f indices tags⟩

/-- Witness for C6 (amended): the two-object import of `sampleBase` and `sampleMorph`
validates, so the conversion succeeds with the base's center as model center and each frame
carrying the center of its own extraction. -/
theorem claim_C6_witness :
    ∃ m, colladaConvert sampleBase [sampleMorph] = .ok m ∧
      m.center = (extract_frame sampleBase (colladaAssociations sampleBase) []).1 ∧
      m.frames = (extract_frame sampleBase (colladaAssociations sampleBase) []).2 ::
        [sampleMorph].map
          (fun f => (extract_frame f (colladaAssociations sampleBase) []).2) ∧
      ∀ (f : CObject) (indices : List (Nat × Nat × Nat)) (tags : List V3),
        (extract_frame f indices tags).2.center = (extract_frame f indices tags).1 :=
  claim_C6 sampleBase [sampleMorph] (by decide)

/-- Counterexample to C6: importing `sampleBase` with the congruent morph object `sampleMorph`
succeeds, yet the additional frame's center is `(2, 0, 0)` — recomputed from the morph object's
own single position — while the base-frame center the model carries is `(0, 0, 0)`; the base
center is not reused as the additional frame's center. -/
theorem claim_C6_cex :
    (colladaConvert sampleBase [sampleMorph]).map
        (fun m => ((m.frames.getD 1 ⟨[], [], ⟨0, 0, 0⟩⟩).center, m.center)) =
      Except.ok ((⟨2, 0, 0⟩ : V3), (⟨0, 0, 0⟩ : V3)) ∧
    (⟨2, 0, 0⟩ : V3) ≠ ⟨0, 0, 0⟩ := by
  constructor
  · have hA : colladaAssociations sampleBase = [(0, 0, 0)] := by decide
    rw [colladaConvert_ok sampleBase [sampleMorph] (by decide)]
    simp only [Except.map, List.map_cons, List.map_nil, List.getD, hA]
    apply congrArg
    apply Prod.ext
    · show (extract_frame sampleMorph [(0, 0, 0)] []).2.center = _
      rw [extract_frame_frame_center, extract_frame_single_center]
      show importPoint ⟨2, 0, 0⟩ = _
      exact importPoint_axis 2
    · show (extract_frame sampleBase [(0, 0, 0)] []).1 = _
      rw [extract_frame_single_center]
      show importPoint ⟨0, 0, 0⟩ = _
      exact importPoint_axis 0
  · decide

end Cemconv
